import Mathlib

/-!
Verification development for the ITracker task-timing tool.

The on-disk log format and its reader/writer (src/log.rs, src/timer.rs),
the CSV-side reader used by stop (src/main.rs), and the in-memory `Timer`
state machine (src/timer.rs) are embedded as executable Lean definitions
over `List Char` lines.  Rust `&str` values are modelled as `List Char`
(the sources only manipulate ASCII delimiters, so char = byte slicing
coincide on every path exercised here).
-/

/-- Models Rust `char::is_whitespace` on the characters appearing in the
log format (ASCII whitespace; the Unicode extension is irrelevant to the
delimiters used by the sources). -/
def ws (c : Char) : Bool := c.isWhitespace

/-- Models Rust `str::trim`: drop whitespace from both ends. -/
def trim (l : List Char) : List Char :=
  ((l.dropWhile ws).reverse.dropWhile ws).reverse

/-- Models Rust `str::starts_with pat`: `startsWith pat l` holds when `pat`
is an initial segment of `l`. -/
def startsWith : List Char → List Char → Bool
  | [], _ => true
  | _ :: _, [] => false
  | p :: ps, c :: cs => if p = c then startsWith ps cs else false

/-- Numeric value of a decimal digit character. -/
def digitVal (c : Char) : Nat := c.toNat - 48

/-- Models Rust `str::parse::<usize>` / `str::parse::<u64>` on its decimal
core: a non-empty all-digit string denotes its decimal value. -/
def parseNatCore (l : List Char) : Option Nat :=
  if l ≠ [] ∧ l.all Char.isDigit then
    some (l.foldl (fun a c => a * 10 + digitVal c) 0)
  else none

/-- Models Rust `str::parse::<usize>` / `str::parse::<u64>`: decimal
digits with an optional leading plus sign. -/
def parseNat (l : List Char) : Option Nat :=
  match l with
  | c :: rest => if c = '+' then parseNatCore rest else parseNatCore l
  | [] => parseNatCore l

/-- Auxiliary digit renderer with explicit fuel, so that terms evaluate
by kernel reduction (structural recursion on the fuel). -/
def natCharsAux : Nat → Nat → List Char → List Char
  | 0, _, acc => acc
  | fuel + 1, n, acc =>
    if n < 10 then Nat.digitChar n :: acc
    else natCharsAux fuel (n / 10) (Nat.digitChar (n % 10) :: acc)

/-- Decimal rendering of a natural number, as produced by Rust's
`Display` for unsigned integers (used by `format!` and `writeln!`). -/
def natChars (n : Nat) : List Char := natCharsAux (n + 1) n []

/-! ## The log record model (src/log.rs) -/

/-- One decoded log entry, as produced by `read_logs_from_file`
(src/log.rs): index, start-time text, free-text message, elapsed-time
text. -/
structure LogEntry where
  index : Nat
  start_time : List Char
  message : List Char
  elapsed_time : List Char
deriving DecidableEq

/-- One step of the reader loop of `read_logs_from_file` (src/log.rs):
state is (entries pushed so far, current entry under construction).
Mirrors the four-way branch on the trimmed line. -/
def decodeStep (st : List LogEntry × Option LogEntry) (line : List Char) :
    List LogEntry × Option LogEntry :=
  if startsWith ("Log Entry:".data) (trim line) then
    (match st.2 with
     | some e => st.1 ++ [e]
     | none => st.1,
     some ⟨(parseNat (trim ((trim line).drop 10))).getD 0, [], [], []⟩)
  else if startsWith ("Start Time:".data) (trim line) then
    match st.2 with
    | some e => (st.1, some { e with start_time := trim ((trim line).drop 12) })
    | none => st
  else if startsWith ("Elapsed Time:".data) (trim line) then
    match st.2 with
    | some e => (st.1, some { e with elapsed_time := trim ((trim line).drop 14) })
    | none => st
  else if startsWith ("----".data) (trim line) then st
  else
    match st.2 with
    | some e => (st.1, some { e with message := e.message ++ trim line ++ ['\n'] })
    | none => st

/-- End of the reader loop of `read_logs_from_file` (src/log.rs): push
the final entry under construction when any of its text fields is
non-empty. -/
def finishLogs : List LogEntry × Option LogEntry → List LogEntry
  | (entries, some e) =>
    if e.start_time ≠ [] ∨ e.message ≠ [] ∨ e.elapsed_time ≠ [] then entries ++ [e]
    else entries
  | (entries, none) => entries

/-- `read_logs_from_file` (src/log.rs) on an already-split line list:
fold the reader loop, then push the final non-empty entry. -/
def readLogs (lines : List (List Char)) : List LogEntry :=
  finishLogs (lines.foldl decodeStep ([], none))

/-! ## The log writer (src/timer.rs, `Timer::log_task`) -/

/-- The in-memory data written for one log entry by `Timer::log_task`
(src/timer.rs): entry index, RFC-2822 start-time text, task description,
and elapsed seconds. -/
structure TaskRec where
  index : Nat
  start_time : List Char
  message : List Char
  elapsed_secs : Nat
deriving DecidableEq

/-- The lines written for one entry by `Timer::log_task` (src/timer.rs):
a leading blank line (from the `"\n Log Entry: ..."` write), the entry
header, the start-time line, the description line, the elapsed line, and
a dash separator of the terminal width. -/
def encodeTask (r : TaskRec) (width : Nat) : List (List Char) :=
  [ []
  , " Log Entry: ".data ++ natChars r.index
  , " Start Time: ".data ++ r.start_time
  , ' ' :: r.message
  , " Elapsed Time: ".data ++ natChars r.elapsed_secs ++ " seconds".data
  , List.replicate width '-' ]

/-- The entry the round-trip law expects the reader to recover from
`encodeTask r`: each field exactly as the writer wrote it (the elapsed
field's written text is the seconds value followed by the literal
word). -/
def expectedEntry (r : TaskRec) : LogEntry :=
  ⟨r.index, r.start_time, r.message, natChars r.elapsed_secs ++ " seconds".data⟩

/-- A text field with no surrounding whitespace and at least one
character. -/
def trimmedNE (l : List Char) : Prop :=
  l ≠ [] ∧ l.dropWhile ws = l ∧ l.reverse.dropWhile ws = l.reverse

instance (l : List Char) : Decidable (trimmedNE l) := by
  unfold trimmedNE
  infer_instance

/-- A valid record for the round-trip law: the start time and the
description carry no surrounding whitespace, and the description does
not begin with one of the reader's reserved line markers. -/
def ValidRec (r : TaskRec) : Prop :=
  trimmedNE r.start_time ∧ trimmedNE r.message ∧
  startsWith ("Log Entry:".data) r.message = false ∧
  startsWith ("Start Time:".data) r.message = false ∧
  startsWith ("Elapsed Time:".data) r.message = false ∧
  startsWith ("----".data) r.message = false

instance (r : TaskRec) : Decidable (ValidRec r) := by
  unfold ValidRec
  infer_instance

/-! ## Index assignment in `Timer::log_task` (src/timer.rs) -/

/-- Models `split_whitespace().last()`: the last whitespace-separated
word of a line, if any. -/
def lastWord (l : List Char) : Option (List Char) :=
  let r := (l.reverse.dropWhile ws).takeWhile (fun c => !(ws c))
  if r = [] then none else some r.reverse

/-- One step of the index scan in `Timer::log_task` (src/timer.rs):
on a line starting with `" Log Entry: "`, parse its last word and keep
the maximum seen so far. -/
def scanStep (cur : Nat) (line : List Char) : Nat :=
  if startsWith (" Log Entry: ".data) line then
    match lastWord line with
    | some wrd =>
      match parseNat wrd with
      | some p => if p > cur then p else cur
      | none => cur
    | none => cur
  else cur

/-- The index `Timer::log_task` assigns to a new entry: one more than
the highest index found by scanning the existing lines (0 when the file
is missing or has no entry lines). -/
def nextLogIndex (lines : List (List Char)) : Nat :=
  lines.foldl scanStep 0 + 1

/-- Follows the spec's words for C3: the next index is the count of
existing records, plus one.  Records are counted as `read_logs_from_file`
decodes them.  Compared against `nextLogIndex`, which is what the source
computes. -/
def specNextIndex (lines : List (List Char)) : Nat :=
  (readLogs lines).length + 1

/-- Maximum of two naturals, written as the scan's comparison writes
it. -/
def natMax (a b : Nat) : Nat := if a < b then b else a

/-! ## Deletion (src/log.rs, `delete_log_entry`) -/

/-- Error kinds of `std::io::Error` used by the sources
(`ErrorKind::InvalidData`, `ErrorKind::NotFound`). -/
inductive IoErrorKind where
  | invalidData
  | notFound
deriving DecidableEq

/-- One step of the deletion loop of `delete_log_entry` (src/log.rs):
state is (kept lines, delete_mode).  In delete mode, lines are skipped
until a dash delimiter; otherwise a line trim-equal to
`"Log Entry: <index>"` enters delete mode and every other line is
kept. -/
def deleteStep (index : Nat) (st : List (List Char) × Bool) (line : List Char) :
    List (List Char) × Bool :=
  if st.2 then
    if startsWith ("----".data) (trim line) then (st.1, false) else (st.1, true)
  else
    if trim line = "Log Entry: ".data ++ natChars index then (st.1, true)
    else (st.1 ++ [line], false)

/-- `delete_log_entry` (src/log.rs) on an already-split line list: fold
the deletion loop and rewrite the file with the kept lines.  The `Except`
carries the `std::io::Error` channel of the Rust signature; after a
successful open, the function always returns `Ok`. -/
def deleteLogEntry (lines : List (List Char)) (index : Nat) :
    Except IoErrorKind (List (List Char)) :=
  .ok (lines.foldl (deleteStep index) ([], false)).1

/-! ## The CSV-side reader used by stop (src/main.rs) -/

/-- `read_start_time_and_paused_duration_from_csv` (src/main.rs): scan
the CSV records (each a field list); a record with at least five fields
whose first field parses to the wanted index is the hit.  Its second
field must parse as an RFC-2822 timestamp (the chrono parser is the
`parseTime` parameter, yielding seconds) or the scan aborts with
`InvalidData`; the fifth field's parse failure is silently defaulted to
0 (`unwrap_or_default`).  No hit means `NotFound`. -/
def readStartPaused (parseTime : List Char → Option Nat) (index : Nat) :
    List (List (List Char)) → Except IoErrorKind (Nat × Nat)
  | [] => .error .notFound
  | r :: rest =>
    match r with
    | f0 :: f1 :: _ :: _ :: f4 :: _ =>
      match parseNat f0 with
      | some i =>
        if i = index then
          match parseTime f1 with
          | some start => .ok (start, (parseNat f4).getD 0)
          | none => .error .invalidData
        else readStartPaused parseTime index rest
      | none => readStartPaused parseTime index rest
    | _ => readStartPaused parseTime index rest

/-- Modelled from the spec: `Timer::update_log_entry_with_elapsed_time`
is called from `stop_timer` (src/main.rs) but its definition is absent
from the sources.  Per the spec's stop rule, the value persisted as
`elapsed_seconds` is `(now − start_time) − paused_seconds`, i.e. the raw
elapsed handed in by `stop_timer` minus the paused accumulator read back
from the store. -/
def updateLogEntryElapsed (elapsed paused : Nat) : Nat :=
  elapsed - paused

/-- `stop_timer` (src/main.rs): read the start time and paused duration
back from the CSV store, compute the raw elapsed `now − start_time`
(saturating, from `duration_since(..).unwrap_or_default()`), and hand
both to the update that persists the final elapsed value. -/
def stopTimer (parseTime : List Char → Option Nat)
    (records : List (List (List Char))) (index now : Nat) :
    Except IoErrorKind Nat :=
  match readStartPaused parseTime index records with
  | .error e => .error e
  | .ok (start, paused) => .ok (updateLogEntryElapsed (now - start) paused)

/-! ## The in-memory Timer state machine (src/timer.rs) -/

/-- The `Timer` struct of src/timer.rs, with wall-clock instants as
seconds.  The `daily_log` and `task_logs` collections are omitted: none
of the modelled operations reads them.  Each operation takes the current
instant `now` in place of `SystemTime::now()`. -/
structure Timer where
  start_time : Option Nat
  stop_time : Option Nat
  pause_duration : Nat
deriving DecidableEq

/-- `Timer::new` (src/timer.rs). -/
def Timer.new : Timer := ⟨none, none, 0⟩

/-- `Timer::start` (src/timer.rs): record the current time and reset the
pause accumulator. -/
def Timer.start (t : Timer) (now : Nat) : Timer :=
  { t with start_time := some now, pause_duration := 0 }

/-- `Timer.stop` models `Timer::stop` (src/timer.rs): record the stop
time; nothing else is checked or changed. -/
def Timer.stop (t : Timer) (now : Nat) : Timer :=
  { t with stop_time := some now }

/-- `Timer.pause` models `Timer::pause` (src/timer.rs): when running,
add the saturating duration since start to the accumulator and clear the
start time; otherwise do nothing. -/
def Timer.pause (t : Timer) (now : Nat) : Timer :=
  match t.start_time with
  | some s => { t with pause_duration := t.pause_duration + (now - s), start_time := none }
  | none => t

/-- `Timer.resume` models `Timer::resume` (src/timer.rs): when not
running, set the start time to now; otherwise do nothing. -/
def Timer.resume (t : Timer) (now : Nat) : Timer :=
  match t.start_time with
  | none => { t with start_time := some now }
  | some _ => t

/-- `Timer.elapsed` models `Timer::elapsed` (src/timer.rs): when running,
the saturating duration since start PLUS the pause accumulator; when not
running, the pause accumulator alone. -/
def Timer.elapsed (t : Timer) (now : Nat) : Nat :=
  match t.start_time with
  | some s => (now - s) + t.pause_duration
  | none => t.pause_duration

/-- A pause or resume call at a given instant, for sequences over one
record with no intervening start. -/
inductive PROp where
  | pauseOp (now : Nat)
  | resumeOp (now : Nat)

/-- Apply one pause/resume call to the timer state. -/
def applyPR (t : Timer) : PROp → Timer
  | .pauseOp n => t.pause n
  | .resumeOp n => t.resume n

/-! ## Sample data for concrete counterexamples and witnesses -/

/-- A sample RFC-2822 start-time string, as `to_rfc2822` renders it. -/
def sampleStart : List Char := "Tue, 01 Jan 2030 00:00:00 +0000".data

/-- A sample writer-side record with index 1. -/
def sampleRec : TaskRec := ⟨1, sampleStart, "hello".data, 0⟩

/-- A sample writer-side record with index 5 (as arises after deletions). -/
def sampleRec5 : TaskRec := ⟨5, sampleStart, "hello".data, 0⟩

/-- A sample one-entry log file (entry index 1, separator width 4). -/
def sampleLines : List (List Char) := encodeTask sampleRec 4

/-- A sample CSV store: one record with index 1, start-time field
`"100"`, and paused field `"7"`. -/
def sampleCsv : List (List (List Char)) :=
  [["1".data, "100".data, "task".data, "0".data, "7".data]]

/-! ## Arithmetic and parsing lemmas -/

theorem natCharsAux_succ (fuel n : Nat) (acc : List Char) :
    natCharsAux (fuel + 1) n acc
      = if n < 10 then Nat.digitChar n :: acc
        else natCharsAux fuel (n / 10) (Nat.digitChar (n % 10) :: acc) := rfl

theorem natCharsAux_append :
    ∀ (fuel n : Nat) (acc : List Char), n < fuel →
      natCharsAux fuel n acc = natCharsAux fuel n [] ++ acc := by
  intro fuel
  induction fuel with
  | zero =>
    intro n acc h
    omega
  | succ f ih =>
    intro n acc h
    rw [natCharsAux_succ, natCharsAux_succ]
    by_cases h10 : n < 10
    · rw [if_pos h10, if_pos h10]
      rfl
    · rw [if_neg h10, if_neg h10]
      have hd := Nat.div_lt_self (show 0 < n by omega) (show 1 < 10 by omega)
      rw [ih (n / 10) (Nat.digitChar (n % 10) :: acc) (by omega),
          ih (n / 10) [Nat.digitChar (n % 10)] (by omega)]
      simp

theorem natCharsAux_fuel_irrel :
    ∀ (f1 f2 n : Nat) (acc : List Char), n < f1 → n < f2 →
      natCharsAux f1 n acc = natCharsAux f2 n acc := by
  intro f1
  induction f1 with
  | zero =>
    intro f2 n acc h1 _
    omega
  | succ f ih =>
    intro f2 n acc h1 h2
    cases f2 with
    | zero => omega
    | succ g =>
      rw [natCharsAux_succ, natCharsAux_succ]
      by_cases h10 : n < 10
      · rw [if_pos h10, if_pos h10]
      · rw [if_neg h10, if_neg h10]
        have hd := Nat.div_lt_self (show 0 < n by omega) (show 1 < 10 by omega)
        exact ih g (n / 10) _ (by omega) (by omega)

theorem natChars_lt {n : Nat} (h : n < 10) : natChars n = [Nat.digitChar n] := by
  unfold natChars
  rw [natCharsAux_succ, if_pos h]

theorem natChars_ge {n : Nat} (h : 10 ≤ n) :
    natChars n = natChars (n / 10) ++ [Nat.digitChar (n % 10)] := by
  have hd := Nat.div_lt_self (show 0 < n by omega) (show 1 < 10 by omega)
  unfold natChars
  rw [natCharsAux_succ, if_neg (by omega)]
  rw [natCharsAux_append n (n / 10) _ (by omega)]
  rw [natCharsAux_fuel_irrel n (n / 10 + 1) (n / 10) [] (by omega) (by omega)]

theorem digitChar_isDigit {n : Nat} (h : n < 10) : (Nat.digitChar n).isDigit = true := by
  interval_cases n <;> decide

theorem digitChar_not_ws {n : Nat} (h : n < 10) : ws (Nat.digitChar n) = false := by
  interval_cases n <;> decide

theorem digitVal_digitChar {n : Nat} (h : n < 10) : digitVal (Nat.digitChar n) = n := by
  interval_cases n <;> decide

theorem natChars_ne_nil (n : Nat) : natChars n ≠ [] := by
  by_cases h : n < 10
  · rw [natChars_lt h]
    simp
  · rw [natChars_ge (by omega)]
    simp

theorem natChars_all_digit (n : Nat) : ∀ c ∈ natChars n, c.isDigit = true := by
  induction n using Nat.strong_induction_on with
  | _ n ih =>
    by_cases h : n < 10
    · rw [natChars_lt h]
      intro c hc
      rw [List.mem_singleton] at hc
      exact hc ▸ digitChar_isDigit h
    · rw [natChars_ge (by omega)]
      intro c hc
      rcases List.mem_append.mp hc with hc | hc
      · exact ih (n / 10) (Nat.div_lt_self (by omega) (by omega)) c hc
      · rw [List.mem_singleton] at hc
        exact hc ▸ digitChar_isDigit (Nat.mod_lt _ (by omega))

theorem natChars_all_not_ws (n : Nat) : ∀ c ∈ natChars n, ws c = false := by
  induction n using Nat.strong_induction_on with
  | _ n ih =>
    by_cases h : n < 10
    · rw [natChars_lt h]
      intro c hc
      rw [List.mem_singleton] at hc
      exact hc ▸ digitChar_not_ws h
    · rw [natChars_ge (by omega)]
      intro c hc
      rcases List.mem_append.mp hc with hc | hc
      · exact ih (n / 10) (Nat.div_lt_self (by omega) (by omega)) c hc
      · rw [List.mem_singleton] at hc
        exact hc ▸ digitChar_not_ws (Nat.mod_lt _ (by omega))

theorem natChars_foldl (n : Nat) :
    ∀ a : Nat, (natChars n).foldl (fun a c => a * 10 + digitVal c) a
      = a * 10 ^ (natChars n).length + n := by
  induction n using Nat.strong_induction_on with
  | _ n ih =>
    intro a
    by_cases h : n < 10
    · rw [natChars_lt h]
      simp [digitVal_digitChar h]
    · rw [natChars_ge (by omega)]
      rw [List.foldl_append, List.foldl_cons, List.foldl_nil, List.length_append]
      rw [ih (n / 10) (Nat.div_lt_self (by omega) (by omega)) a,
          digitVal_digitChar (Nat.mod_lt _ (by omega))]
      have hdm : 10 * (n / 10) + n % 10 = n := Nat.div_add_mod n 10
      simp only [List.length_cons, List.length_nil]
      ring_nf
      omega

theorem parseNatCore_natChars (n : Nat) : parseNatCore (natChars n) = some n := by
  unfold parseNatCore
  rw [if_pos]
  · rw [natChars_foldl n 0]
    simp
  · exact ⟨natChars_ne_nil n, List.all_eq_true.mpr (natChars_all_digit n)⟩

theorem natChars_head_digit (n : Nat) :
    ∃ c cs, natChars n = c :: cs ∧ c.isDigit = true := by
  rcases hn : natChars n with _ | ⟨c, cs⟩
  · exact absurd hn (natChars_ne_nil n)
  · exact ⟨c, cs, rfl, natChars_all_digit n c (hn ▸ List.mem_cons_self c cs)⟩

theorem parseNat_cons (c : Char) (cs : List Char) :
    parseNat (c :: cs) = if c = '+' then parseNatCore cs else parseNatCore (c :: cs) := rfl

theorem parseNat_natChars (n : Nat) : parseNat (natChars n) = some n := by
  obtain ⟨c, cs, hc, hd⟩ := natChars_head_digit n
  have hplus : c ≠ '+' := by
    intro e
    subst e
    exact absurd hd (by decide)
  rw [hc, parseNat_cons, if_neg hplus, ← hc, parseNatCore_natChars]

/-! ## String-level helper lemmas -/

theorem startsWith_nil_right (p : Char) (ps : List Char) :
    startsWith (p :: ps) [] = false := rfl

theorem startsWith_cons_ne {p c : Char} (ps cs : List Char) (h : p ≠ c) :
    startsWith (p :: ps) (c :: cs) = false := by
  unfold startsWith
  rw [if_neg h]

theorem startsWith_cons_eq (c : Char) (ps cs : List Char) :
    startsWith (c :: ps) (c :: cs) = startsWith ps cs := by
  rw [show startsWith (c :: ps) (c :: cs)
        = if c = c then startsWith ps cs else false from rfl]
  rw [if_pos rfl]

theorem startsWith_append_self (p s : List Char) :
    startsWith p (p ++ s) = true := by
  induction p with
  | nil => rfl
  | cons a as ih =>
    rw [List.cons_append, startsWith_cons_eq]
    exact ih

theorem startsWith_false_append {p l : List Char} (q : List Char)
    (h : startsWith p l = false) : startsWith (p ++ q) l = false := by
  induction p generalizing l with
  | nil => exact absurd h (by simp [startsWith])
  | cons a as ih =>
    cases l with
    | nil => rfl
    | cons b bs =>
      by_cases hab : a = b
      · subst hab
        rw [startsWith_cons_eq] at h
        rw [List.cons_append, startsWith_cons_eq]
        exact ih h
      · rw [List.cons_append]
        exact startsWith_cons_ne _ _ hab

theorem startsWith_append_of_le (p q s : List Char) (h : p.length ≤ q.length) :
    startsWith p (q ++ s) = startsWith p q := by
  induction p generalizing q with
  | nil => simp [startsWith]
  | cons a as ih =>
    cases q with
    | nil => simp at h
    | cons b bs =>
      rw [List.cons_append]
      by_cases hab : a = b
      · subst hab
        rw [startsWith_cons_eq, startsWith_cons_eq]
        exact ih bs (by simpa using h)
      · rw [startsWith_cons_ne _ _ hab, startsWith_cons_ne _ _ hab]

theorem dropWhile_ws_append {a : List Char} (b : List Char)
    (ha : a.dropWhile ws = a) (hne : a ≠ []) :
    (a ++ b).dropWhile ws = a ++ b := by
  cases a with
  | nil => exact absurd rfl hne
  | cons x xs =>
    rw [List.dropWhile_cons] at ha
    by_cases hx : ws x = true
    · rw [if_pos hx] at ha
      have hsuf : xs.dropWhile ws <:+ xs := List.dropWhile_suffix ws
      have hlen := List.IsSuffix.length_le hsuf
      rw [ha] at hlen
      simp at hlen
    · rw [List.cons_append, List.dropWhile_cons, if_neg hx]

theorem dropWhile_cons_not_ws {x : Char} (xs : List Char) (hx : ws x = false) :
    (x :: xs).dropWhile ws = x :: xs := by
  rw [List.dropWhile_cons, hx]
  simp

theorem rev_dropWhile_append (a : List Char) {b : List Char}
    (hb : b.reverse.dropWhile ws = b.reverse) (hbne : b.reverse ≠ []) :
    (a ++ b).reverse.dropWhile ws = (a ++ b).reverse := by
  rw [List.reverse_append]
  exact dropWhile_ws_append _ hb hbne

theorem trim_eq_self {l : List Char}
    (h1 : l.dropWhile ws = l) (h2 : l.reverse.dropWhile ws = l.reverse) :
    trim l = l := by
  unfold trim
  rw [h1, h2, List.reverse_reverse]

theorem trim_space_line {rest : List Char}
    (h1 : rest.dropWhile ws = rest) (h2 : rest.reverse.dropWhile ws = rest.reverse) :
    trim (' ' :: rest) = rest := by
  unfold trim
  rw [List.dropWhile_cons, if_pos (by decide : ws ' ' = true), h1, h2, List.reverse_reverse]

theorem natChars_dropWhile (n : Nat) : (natChars n).dropWhile ws = natChars n := by
  obtain ⟨c, cs, hc, hd⟩ := natChars_head_digit n
  have hcw : ws c = false := by
    apply natChars_all_not_ws n c
    rw [hc]
    exact List.mem_cons_self c cs
  rw [hc]
  exact dropWhile_cons_not_ws cs hcw

theorem natChars_rev_ne_nil (n : Nat) : (natChars n).reverse ≠ [] := by
  intro h
  exact natChars_ne_nil n (by simpa using congrArg List.reverse h)

theorem natChars_rev_dropWhile (n : Nat) :
    (natChars n).reverse.dropWhile ws = (natChars n).reverse := by
  rcases hr : (natChars n).reverse with _ | ⟨y, ys⟩
  · rfl
  · have hy : y ∈ natChars n := by
      rw [← List.mem_reverse, hr]
      exact List.mem_cons_self y ys
    exact dropWhile_cons_not_ws ys (natChars_all_not_ws n y hy)

theorem takeWhile_append_all {a : List Char} (b : List Char)
    (ha : ∀ c ∈ a, ws c = false) :
    (a ++ b).takeWhile (fun c => !(ws c)) = a ++ b.takeWhile (fun c => !(ws c)) := by
  induction a with
  | nil => simp
  | cons x xs ih =>
    rw [List.cons_append, List.takeWhile_cons]
    have hx : ws x = false := ha x (List.mem_cons_self x xs)
    rw [hx]
    simp only [Bool.not_false, if_true, List.cons_append]
    rw [ih (fun c hc => ha c (List.mem_cons_of_mem x hc))]

theorem trim_replicate_dash (w : Nat) (hw : 4 ≤ w) :
    trim (List.replicate w '-') = List.replicate w '-' := by
  obtain ⟨k, rfl⟩ : ∃ k, w = k + 4 := ⟨w - 4, by omega⟩
  apply trim_eq_self
  · exact dropWhile_cons_not_ws _ (by decide)
  · rw [List.reverse_replicate]
    exact dropWhile_cons_not_ws _ (by decide)

theorem if_bool_false {α : Sort _} {b : Bool} (h : b = false) (A B : α) :
    (if b then A else B) = B := by
  subst h
  rfl

theorem if_bool_true {α : Sort _} {b : Bool} (h : b = true) (A B : α) :
    (if b then A else B) = A := by
  subst h
  rfl

/-! ## Evaluating the reader on the writer's lines -/

theorem decodeStep_empty_line (es : List LogEntry) :
    decodeStep (es, none) ([] : List Char) = (es, none) := rfl

theorem trim_header (n : Nat) :
    trim (" Log Entry: ".data ++ natChars n) = "Log Entry: ".data ++ natChars n := by
  rw [show (" Log Entry: ".data ++ natChars n)
        = ' ' :: ("Log Entry: ".data ++ natChars n) from rfl]
  apply trim_space_line
  · exact dropWhile_ws_append _ (by decide) (by decide)
  · exact rev_dropWhile_append _ (natChars_rev_dropWhile n) (natChars_rev_ne_nil n)

theorem decodeStep_header (es : List LogEntry) (n : Nat) :
    decodeStep (es, none) (" Log Entry: ".data ++ natChars n)
      = (es, some ⟨n, [], [], []⟩) := by
  have hc : startsWith ("Log Entry:".data)
      (trim (" Log Entry: ".data ++ natChars n)) = true := by
    rw [trim_header]
    rw [show ("Log Entry: ".data ++ natChars n)
          = "Log Entry:".data ++ (' ' :: natChars n) from rfl]
    exact startsWith_append_self _ _
  have hidx : trim ((trim (" Log Entry: ".data ++ natChars n)).drop 10) = natChars n := by
    rw [trim_header]
    rw [show ("Log Entry: ".data ++ natChars n).drop 10 = ' ' :: natChars n from rfl]
    exact trim_space_line (natChars_dropWhile n) (natChars_rev_dropWhile n)
  unfold decodeStep
  rw [if_bool_true hc]
  rw [hidx, parseNat_natChars]
  rfl

theorem decodeStep_start_line (es : List LogEntry) (e : LogEntry) {st : List Char}
    (h1 : st.dropWhile ws = st) (h2 : st.reverse.dropWhile ws = st.reverse)
    (hne : st ≠ []) :
    decodeStep (es, some e) (" Start Time: ".data ++ st)
      = (es, some { e with start_time := st }) := by
  have hrne : st.reverse ≠ [] := fun hr => hne (by simpa using hr)
  have ht : trim (" Start Time: ".data ++ st) = "Start Time: ".data ++ st := by
    rw [show (" Start Time: ".data ++ st)
          = ' ' :: ("Start Time: ".data ++ st) from rfl]
    apply trim_space_line
    · exact dropWhile_ws_append _ (by decide) (by decide)
    · exact rev_dropWhile_append _ h2 hrne
  have hc1 : startsWith ("Log Entry:".data) ("Start Time: ".data ++ st) = false := by
    rw [startsWith_append_of_le _ _ _ (by decide)]
    rfl
  have hc2 : startsWith ("Start Time:".data) ("Start Time: ".data ++ st) = true := by
    rw [show ("Start Time: ".data ++ st)
          = "Start Time:".data ++ (' ' :: st) from rfl]
    exact startsWith_append_self _ _
  have hdrop : trim (("Start Time: ".data ++ st).drop 12) = st := by
    rw [show ("Start Time: ".data ++ st).drop 12 = st from rfl]
    exact trim_eq_self h1 h2
  unfold decodeStep
  rw [ht, if_bool_false hc1, if_bool_true hc2, hdrop]

theorem decodeStep_msg (es : List LogEntry) (e : LogEntry) {msg : List Char}
    (h1 : msg.dropWhile ws = msg) (h2 : msg.reverse.dropWhile ws = msg.reverse)
    (hm1 : startsWith ("Log Entry:".data) msg = false)
    (hm2 : startsWith ("Start Time:".data) msg = false)
    (hm3 : startsWith ("Elapsed Time:".data) msg = false)
    (hm4 : startsWith ("----".data) msg = false) :
    decodeStep (es, some e) (' ' :: msg)
      = (es, some { e with message := e.message ++ msg ++ ['\n'] }) := by
  have ht : trim (' ' :: msg) = msg := trim_space_line h1 h2
  unfold decodeStep
  rw [ht, if_bool_false hm1, if_bool_false hm2, if_bool_false hm3, if_bool_false hm4]

theorem decodeStep_elapsed (es : List LogEntry) (e : LogEntry) (n : Nat) :
    decodeStep (es, some e) (" Elapsed Time: ".data ++ natChars n ++ " seconds".data)
      = (es, some { e with elapsed_time := natChars n ++ " seconds".data }) := by
  have hAB : ("Elapsed Time: ".data ++ natChars n).dropWhile ws
      = "Elapsed Time: ".data ++ natChars n :=
    dropWhile_ws_append _ (by decide) (by decide)
  have hABne : ("Elapsed Time: ".data ++ natChars n) ≠ [] := by simp
  have ht : trim (" Elapsed Time: ".data ++ natChars n ++ " seconds".data)
      = "Elapsed Time: ".data ++ natChars n ++ " seconds".data := by
    rw [show (" Elapsed Time: ".data ++ natChars n ++ " seconds".data)
          = ' ' :: ("Elapsed Time: ".data ++ natChars n ++ " seconds".data) from rfl]
    apply trim_space_line
    · exact dropWhile_ws_append _ hAB hABne
    · exact rev_dropWhile_append _ (by decide) (by decide)
  have hc1 : startsWith ("Log Entry:".data)
      ("Elapsed Time: ".data ++ natChars n ++ " seconds".data) = false := by
    rw [List.append_assoc, startsWith_append_of_le _ _ _ (by decide)]
    rfl
  have hc2 : startsWith ("Start Time:".data)
      ("Elapsed Time: ".data ++ natChars n ++ " seconds".data) = false := by
    rw [List.append_assoc, startsWith_append_of_le _ _ _ (by decide)]
    rfl
  have hc3 : startsWith ("Elapsed Time:".data)
      ("Elapsed Time: ".data ++ natChars n ++ " seconds".data) = true := by
    rw [show ("Elapsed Time: ".data ++ natChars n ++ " seconds".data)
          = "Elapsed Time:".data ++ (' ' :: (natChars n ++ " seconds".data)) from ?hx]
    · exact startsWith_append_self _ _
    case hx =>
      rw [List.append_assoc]
      rfl
  have hdrop : trim (("Elapsed Time: ".data ++ natChars n ++ " seconds".data).drop 14)
      = natChars n ++ " seconds".data := by
    rw [show ("Elapsed Time: ".data ++ natChars n ++ " seconds".data).drop 14
          = natChars n ++ " seconds".data from ?hy]
    · apply trim_eq_self
      · exact dropWhile_ws_append _ (natChars_dropWhile n) (natChars_ne_nil n)
      · exact rev_dropWhile_append _ (by decide) (by decide)
    case hy =>
      rw [List.append_assoc]
      rfl
  unfold decodeStep
  rw [ht, if_bool_false hc1, if_bool_false hc2, if_bool_true hc3, hdrop]

theorem decodeStep_dash (es : List LogEntry) (e : LogEntry) (w : Nat) (hw : 4 ≤ w) :
    decodeStep (es, some e) (List.replicate w '-') = (es, some e) := by
  obtain ⟨k, rfl⟩ : ∃ k, w = k + 4 := ⟨w - 4, by omega⟩
  have ht := trim_replicate_dash (k + 4) (by omega)
  have h1 : startsWith ("Log Entry:".data) (List.replicate (k + 4) '-') = false := by
    show startsWith ('L' :: "og Entry:".data) ('-' :: List.replicate (k + 3) '-') = false
    exact startsWith_cons_ne _ _ (by decide)
  have h2 : startsWith ("Start Time:".data) (List.replicate (k + 4) '-') = false := by
    show startsWith ('S' :: "tart Time:".data) ('-' :: List.replicate (k + 3) '-') = false
    exact startsWith_cons_ne _ _ (by decide)
  have h3 : startsWith ("Elapsed Time:".data) (List.replicate (k + 4) '-') = false := by
    show startsWith ('E' :: "lapsed Time:".data) ('-' :: List.replicate (k + 3) '-') = false
    exact startsWith_cons_ne _ _ (by decide)
  have h4 : startsWith ("----".data) (List.replicate (k + 4) '-') = true := by
    show startsWith ("----".data) ("----".data ++ List.replicate k '-') = true
    exact startsWith_append_self _ _
  unfold decodeStep
  rw [ht, if_bool_false h1, if_bool_false h2, if_bool_false h3, if_bool_true h4]

theorem decodeStep_block (es : List LogEntry) (r : TaskRec) (w : Nat)
    (hw : 4 ≤ w) (hv : ValidRec r) :
    (encodeTask r w).foldl decodeStep (es, none)
      = (es, some ⟨r.index, r.start_time, r.message ++ ['\n'],
          natChars r.elapsed_secs ++ " seconds".data⟩) := by
  obtain ⟨⟨hsne, hsl, hsr⟩, ⟨hmne, hml, hmr⟩, hm1, hm2, hm3, hm4⟩ := hv
  unfold encodeTask
  rw [List.foldl_cons, decodeStep_empty_line]
  rw [List.foldl_cons, decodeStep_header]
  rw [List.foldl_cons, decodeStep_start_line es _ hsl hsr hsne]
  rw [List.foldl_cons, decodeStep_msg es _ hml hmr hm1 hm2 hm3 hm4]
  rw [List.foldl_cons, decodeStep_elapsed es _]
  rw [List.foldl_cons, decodeStep_dash es _ w hw]
  rw [List.foldl_nil]
  rfl

/-! ## C1: the elapsed value written at stop time -/

/-- Claim C1: for every record addressed by a stop operation, the
elapsed value computed and written at stop time equals
`(now − start_time) − paused_seconds`, where `paused_seconds` is the
paused-duration accumulator read back from the CSV store.  (The final
write goes through the spec-modelled `updateLogEntryElapsed`, since
`Timer::update_log_entry_with_elapsed_time` is absent from the
sources.) -/
theorem stop_writes_elapsed_minus_paused (pt : List Char → Option Nat)
    (records : List (List (List Char))) (index now s p : Nat)
    (h : readStartPaused pt index records = .ok (s, p)) :
    stopTimer pt records index now = .ok ((now - s) - p) := by
  unfold stopTimer
  rw [h]
  rfl

/-- Witness for C1 at a concrete store: the record with index 1 has
start 100 and paused 7; stopping at 150 writes (150 − 100) − 7 = 43. -/
theorem stop_writes_elapsed_minus_paused_witness :
    stopTimer parseNat sampleCsv 1 150 = .ok ((150 - 100) - 7) :=
  stop_writes_elapsed_minus_paused parseNat sampleCsv 1 150 100 7 rfl

/-! ## C6: stop is not a terminal transition -/

/-- Claim C6 fails on the code: after a successful stop, a pause call
still changes the state — the stopped record accepts a further
transition instead of failing with `AlreadyStopped` (no such error
exists in the sources). -/
theorem stop_not_terminal_counterexample :
    Timer.pause (Timer.stop (Timer.start Timer.new 0) 5) 7
      ≠ Timer.stop (Timer.start Timer.new 0) 5 := by decide

/-- Claim C6 (amended): `stop` only records `stop_time` and imposes no
guard: pause, resume, and stop all remain enabled afterwards, and each
commutes with the preceding stop; a second stop simply overwrites the
stop time. -/
theorem stop_commutes_with_transitions (t : Timer) (n m : Nat) :
    Timer.pause (Timer.stop t n) m = Timer.stop (Timer.pause t m) n ∧
    Timer.resume (Timer.stop t n) m = Timer.stop (Timer.resume t m) n ∧
    Timer.stop (Timer.stop t n) m = Timer.stop t m := by
  rcases t with ⟨st, sp, pd⟩
  cases st <;> simp [Timer.pause, Timer.resume, Timer.stop]

/-! ## C7: the elapsed query -/

/-- Claim C7 fails on the code: for a running timer with start 0 and
pause accumulator 5, `elapsed` at instant 10 is 15, not the claimed
`(10 − 0) − 5 = 5` — the accumulator is added, not subtracted. -/
theorem elapsed_adds_paused_counterexample :
    Timer.elapsed ⟨some 0, none, 5⟩ 10 ≠ (10 - 0) - 5 := by decide

/-- Claim C7 (amended): the read-only elapsed query returns
`pause_duration` when the timer is not running, and
`(now − start) + pause_duration` when it is running (the accumulator is
added to the running span, not subtracted). -/
theorem elapsed_formula (t : Timer) (now : Nat) :
    (t.start_time = none → Timer.elapsed t now = t.pause_duration) ∧
    (∀ s, t.start_time = some s →
      Timer.elapsed t now = (now - s) + t.pause_duration) := by
  constructor
  · intro h
    unfold Timer.elapsed
    rw [h]
  · intro s h
    unfold Timer.elapsed
    rw [h]

/-- Witness for the amended C7 at a concrete running timer. -/
theorem elapsed_formula_witness :
    Timer.elapsed ⟨some 2, none, 3⟩ 10 = (10 - 2) + 3 :=
  (elapsed_formula ⟨some 2, none, 3⟩ 10).2 2 rfl

/-! ## C8: pause on paused, resume on running -/

/-- Claim C8 fails on the code: a pause on an already-paused timer and
a resume on a running timer both return with the state unchanged and no
error — they silently do nothing. -/
theorem pause_resume_silent_noop_counterexample :
    Timer.pause ⟨none, none, 3⟩ 10 = ⟨none, none, 3⟩ ∧
    Timer.resume ⟨some 2, none, 3⟩ 7 = ⟨some 2, none, 3⟩ := by decide

/-- Claim C8 (amended): pause on a non-running timer and resume on a
running timer are silent no-ops; the code defines no
`AlreadyPaused`/`NotPaused` errors. -/
theorem pause_resume_noop (t : Timer) (now : Nat) :
    (t.start_time = none → Timer.pause t now = t) ∧
    (∀ s, t.start_time = some s → Timer.resume t now = t) := by
  constructor
  · intro h
    unfold Timer.pause
    rw [h]
  · intro s h
    unfold Timer.resume
    rw [h]

/-- Witness for the amended C8 at a concrete paused timer. -/
theorem pause_resume_noop_witness :
    Timer.pause ⟨none, none, 4⟩ 11 = ⟨none, none, 4⟩ :=
  (pause_resume_noop ⟨none, none, 4⟩ 11).1 rfl

/-! ## C9: monotonicity of the paused accumulator -/

/-- Claim C9: across any sequence of pause/resume calls (no intervening
start), the pause-duration accumulator never decreases. -/
theorem paused_duration_monotone (t : Timer) (ops : List PROp) :
    t.pause_duration ≤ (ops.foldl applyPR t).pause_duration := by
  induction ops generalizing t with
  | nil => exact Nat.le_refl _
  | cons op rest ih =>
    rw [List.foldl_cons]
    refine Nat.le_trans ?hstep (ih (applyPR t op))
    cases op with
    | pauseOp n =>
      rcases t with ⟨st, sp, pd⟩
      cases st
      · exact Nat.le_refl _
      · exact Nat.le_add_right _ _
    | resumeOp n =>
      rcases t with ⟨st, sp, pd⟩
      cases st <;> exact Nat.le_refl _

/-! ## C4 and C10: deletion of an absent index -/

/-- Claim C4 fails on the code: with index 99 absent from the sample
file, `delete_log_entry` returns success with the lines unchanged rather
than a `NotFound` error. -/
theorem delete_absent_succeeds_counterexample :
    (∀ l ∈ sampleLines, trim l ≠ "Log Entry: ".data ++ natChars 99) ∧
    deleteLogEntry sampleLines 99 = .ok sampleLines ∧
    deleteLogEntry sampleLines 99 ≠ .error IoErrorKind.notFound := by
  refine ⟨by decide, rfl, ?hne⟩
  intro hcontra
  rw [show deleteLogEntry sampleLines 99 = .ok sampleLines from rfl] at hcontra
  exact Except.noConfusion hcontra

/-- Claim C4 (amended): `delete_log_entry` never reports `NotFound`: it
returns success on every input, absent index included. -/
theorem delete_always_succeeds (lines : List (List Char)) (index : Nat) :
    ∃ out, deleteLogEntry lines index = .ok out :=
  ⟨(lines.foldl (deleteStep index) ([], false)).1, rfl⟩

theorem deleteFold_no_match (index : Nat) :
    ∀ (lines acc : List (List Char)),
      (∀ l ∈ lines, trim l ≠ "Log Entry: ".data ++ natChars index) →
      lines.foldl (deleteStep index) (acc, false) = (acc ++ lines, false) := by
  intro lines
  induction lines with
  | nil =>
    intro acc _
    simp
  | cons l rest ih =>
    intro acc h
    rw [List.foldl_cons]
    have hl := h l (List.mem_cons_self l rest)
    have hstep : deleteStep index (acc, false) l = (acc ++ [l], false) := by
      show (if trim l = "Log Entry: ".data ++ natChars index
            then (acc, true) else (acc ++ [l], false)) = (acc ++ [l], false)
      rw [if_neg hl]
    rw [hstep, ih (acc ++ [l]) (fun x hx => h x (List.mem_cons_of_mem l hx))]
    simp

/-- Claim C10: when no line of the file is trim-equal to
`"Log Entry: <index>"`, the delete operation succeeds and rewrites the
file with exactly the original lines in the original order. -/
theorem delete_absent_preserves_lines (lines : List (List Char)) (index : Nat)
    (h : ∀ l ∈ lines, trim l ≠ "Log Entry: ".data ++ natChars index) :
    deleteLogEntry lines index = .ok lines := by
  unfold deleteLogEntry
  rw [deleteFold_no_match index lines [] h]
  rfl

/-- Witness for C10 at the concrete sample file and absent index 99. -/
theorem delete_absent_preserves_lines_witness :
    deleteLogEntry sampleLines 99 = .ok sampleLines :=
  delete_absent_preserves_lines sampleLines 99 (by decide)

/-! ## C5: default substitution on malformed records -/

/-- Claim C5 evaluated on the code at its failing inputs: a log line
with the non-numeric index `oops` decodes to an entry with index 0
(`unwrap_or(0)`), with no error; and a CSV record whose paused field is
`oops` is read back as paused 0 (`unwrap_or_default`), again with no
error — the code substitutes defaults instead of failing with a
`MalformedRecord` error. -/
theorem decode_substitutes_defaults :
    readLogs ["Log Entry: oops".data, "Start Time: x".data,
              "Elapsed Time: 3 seconds".data]
      = [⟨0, "x".data, [], "3 seconds".data⟩] ∧
    readStartPaused (fun _ => some 42) 1
      [["1".data, "t".data, "a".data, "b".data, "oops".data]]
      = .ok (42, 0) :=
  ⟨by decide, rfl⟩

/-! ## C2: the round-trip law of the record codec -/

theorem finishLogs_some (es : List LogEntry) (e : LogEntry)
    (h : e.start_time ≠ []) : finishLogs (es, some e) = es ++ [e] := by
  show (if e.start_time ≠ [] ∨ e.message ≠ [] ∨ e.elapsed_time ≠ []
        then es ++ [e] else es) = es ++ [e]
  rw [if_pos (Or.inl h)]

/-- Claim C2 fails on the code: decoding the writer's own output does
not recover the record — the reader appends a newline to the message
(here `hello` comes back as `hello` followed by a line feed). -/
theorem encode_decode_roundtrip_fails :
    readLogs (encodeTask sampleRec 80) ≠ [expectedEntry sampleRec] := by decide

/-- Claim C2 (amended): for every valid record, decoding the writer's
output recovers the index, start time and elapsed text exactly as
written, and the message with a trailing newline appended. -/
theorem decode_encode_appends_newline (r : TaskRec) (w : Nat)
    (hw : 4 ≤ w) (hv : ValidRec r) :
    readLogs (encodeTask r w)
      = [{ expectedEntry r with message := r.message ++ ['\n'] }] := by
  unfold readLogs
  rw [decodeStep_block [] r w hw hv, finishLogs_some [] _ hv.1.1]
  rfl

/-- Witness for the amended C2 at the concrete sample record. -/
theorem decode_encode_appends_newline_witness :
    readLogs (encodeTask sampleRec 80)
      = [{ expectedEntry sampleRec with message := sampleRec.message ++ ['\n'] }] :=
  decode_encode_appends_newline sampleRec 80 (by decide) (by decide)

/-! ## C3: the index assigned by append -/

theorem if_gt_max (cur p : Nat) : (if p > cur then p else cur) = natMax cur p := by
  unfold natMax
  rcases Nat.lt_or_ge cur p with h | h
  · rw [if_pos h]
  · rw [if_neg (by omega)]

theorem scanStep_skip (line : List Char)
    (h : startsWith (" Log Entry: ".data) line = false) (cur : Nat) :
    scanStep cur line = cur := by
  unfold scanStep
  rw [if_bool_false h]

theorem scanStep_header (cur n : Nat) :
    scanStep cur (" Log Entry: ".data ++ natChars n) = natMax cur n := by
  have hc : startsWith (" Log Entry: ".data)
      (" Log Entry: ".data ++ natChars n) = true := startsWith_append_self _ _
  have hx : ((" Log Entry: ".data ++ natChars n).reverse.dropWhile ws).takeWhile
        (fun c => !(ws c)) = (natChars n).reverse := by
    rw [List.reverse_append]
    rw [dropWhile_ws_append _ (natChars_rev_dropWhile n) (natChars_rev_ne_nil n)]
    rw [takeWhile_append_all _ (fun c hc => natChars_all_not_ws n c (List.mem_reverse.mp hc))]
    rw [show ((" Log Entry: ".data).reverse.takeWhile (fun c => !(ws c))) = [] by decide]
    rw [List.append_nil]
  have hlast : lastWord (" Log Entry: ".data ++ natChars n) = some (natChars n) := by
    unfold lastWord
    rw [hx, if_neg (natChars_rev_ne_nil n), List.reverse_reverse]
  unfold scanStep
  rw [if_bool_true hc, hlast]
  show (match parseNat (natChars n) with
        | some p => if p > cur then p else cur
        | none => cur) = natMax cur n
  rw [parseNat_natChars]
  show (if n > cur then n else cur) = natMax cur n
  exact if_gt_max cur n

theorem scanStep_block (r : TaskRec) (w cur : Nat) (hw : 4 ≤ w) (hv : ValidRec r) :
    (encodeTask r w).foldl scanStep cur = natMax cur r.index := by
  obtain ⟨k, rfl⟩ : ∃ k, w = k + 4 := ⟨w - 4, by omega⟩
  obtain ⟨hst, hmsg, hm1, hm2, hm3, hm4⟩ := hv
  have hskip2 : startsWith (" Log Entry: ".data)
      (" Start Time: ".data ++ r.start_time) = false := by
    rw [startsWith_append_of_le _ _ _ (by decide)]
    rfl
  have hskip3 : startsWith (" Log Entry: ".data) (' ' :: r.message) = false := by
    rw [show (" Log Entry: ".data) = ' ' :: "Log Entry: ".data from rfl,
        startsWith_cons_eq]
    rw [show ("Log Entry: ".data) = "Log Entry:".data ++ [' '] from rfl]
    exact startsWith_false_append _ hm1
  have hskip4 : startsWith (" Log Entry: ".data)
      (" Elapsed Time: ".data ++ natChars r.elapsed_secs ++ " seconds".data) = false := by
    rw [List.append_assoc, startsWith_append_of_le _ _ _ (by decide)]
    rfl
  have hskip5 : startsWith (" Log Entry: ".data)
      (List.replicate (k + 4) '-') = false := by
    show startsWith (' ' :: "Log Entry: ".data) ('-' :: List.replicate (k + 3) '-') = false
    exact startsWith_cons_ne _ _ (by decide)
  unfold encodeTask
  rw [List.foldl_cons, scanStep_skip [] rfl]
  rw [List.foldl_cons, scanStep_header]
  rw [List.foldl_cons, scanStep_skip _ hskip2]
  rw [List.foldl_cons, scanStep_skip _ hskip3]
  rw [List.foldl_cons, scanStep_skip _ hskip4]
  rw [List.foldl_cons, scanStep_skip _ hskip5]
  rw [List.foldl_nil]

theorem scan_blocks (w : Nat) (hw : 4 ≤ w) :
    ∀ (rs : List TaskRec) (cur : Nat), (∀ r ∈ rs, ValidRec r) →
      ((rs.map (fun r => encodeTask r w)).flatten).foldl scanStep cur
        = (rs.map TaskRec.index).foldl natMax cur := by
  intro rs
  induction rs with
  | nil =>
    intro cur _
    rfl
  | cons r rest ih =>
    intro cur hv
    rw [List.map_cons, List.flatten_cons, List.foldl_append]
    rw [scanStep_block r w cur hw (hv r (List.mem_cons_self r rest))]
    rw [ih (natMax cur r.index) (fun x hx => hv x (List.mem_cons_of_mem r hx))]
    rw [List.map_cons, List.foldl_cons]

/-- Claim C3 fails on the code: on a file whose single entry has index
5, `log_task` assigns the next entry index 6 (highest index + 1), while
the claim's `count(existing records) + 1` is 2. -/
theorem next_index_not_count_counterexample :
    nextLogIndex (encodeTask sampleRec5 4) ≠ specNextIndex (encodeTask sampleRec5 4) := by
  decide

/-- Claim C3 (amended): over a store made of writer blocks, append
assigns the new record one more than the highest existing entry index
(1 when the file is missing or empty), not one more than the record
count. -/
theorem append_assigns_max_plus_one (rs : List TaskRec) (w : Nat)
    (hw : 4 ≤ w) (hv : ∀ r ∈ rs, ValidRec r) :
    nextLogIndex ((rs.map (fun r => encodeTask r w)).flatten)
      = (rs.map TaskRec.index).foldl natMax 0 + 1 := by
  unfold nextLogIndex
  rw [scan_blocks w hw rs 0 hv]

/-- Witness for the amended C3: a store holding entries 5 and 1 gets
next index max(5, 1) + 1 = 6. -/
theorem append_assigns_max_plus_one_witness :
    nextLogIndex (([sampleRec5, sampleRec].map (fun r => encodeTask r 4)).flatten)
      = ([sampleRec5, sampleRec].map TaskRec.index).foldl natMax 0 + 1 :=
  append_assigns_max_plus_one [sampleRec5, sampleRec] 4 (by decide) (by decide)
